import Mathlib

set_option maxRecDepth 8000

/-!
Verification development for the job-scraper pipeline.

This file shallowly embeds the core operations of the pipeline and proves
the behavioural properties stated in the specification:

* the fuzzy-match deduplication of `JobDatabase.insert_job`
  (`src/database/schema.py`), with its edit-protection invariant and its
  title-similarity threshold;
* the `KeyRotator` sliding-window rate limiter (`src/llm/processor.py`);
* `BaseScraper.navigate_with_retry` (`src/scrapers/base.py`);
* the description extraction cascade
  (`src/scrapers/description_fetcher.py`);
* the scheduler tick predicate and task-state transitions
  (`src/scheduler/scheduler.py`);
* the LLM batch processor stats (`src/llm/processor.py`).

Modelling conventions: machine timestamps are rationals; SQLite rows are a
Lean list in rowid order; `CURRENT_TIMESTAMP` is an explicit `now`
argument.  The Python standard library function
`difflib.SequenceMatcher.ratio` is embedded at the level of its documented
semantics (total size of the recursively chosen longest matching blocks,
doubled and divided by the total length); the `autojunk` popularity
heuristic, which only engages for strings of 200 characters or more, is
not modelled, and character classes (`\w`, `\s`, `lower`) are modelled on
their ASCII behaviour.
-/

namespace JobScraper

/-! ## Title similarity (difflib.SequenceMatcher over normalized titles) -/

/-- Length of the common prefix of two character lists. -/
def commonRun : List Char → List Char → Nat
  | x :: xs, y :: ys => if x = y then commonRun xs ys + 1 else 0
  | _, _ => 0

/-- Length of the matching run of `a` and `b` starting at positions `i`, `j`,
capped by the range bounds `ahi`, `bhi`. -/
def matchLen (a b : List Char) (i j ahi bhi : Nat) : Nat :=
  min (commonRun (a.drop i) (b.drop j)) (min (ahi - i) (bhi - j))

/-- One candidate step of the longest-match search: replace the running best
block by the block at `(i, j)` exactly when the latter is strictly longer. -/
def bmStep (a b : List Char) (ahi bhi i : Nat) (best : Nat × Nat × Nat) (j : Nat) :
    Nat × Nat × Nat :=
  let k := matchLen a b i j ahi bhi
  if best.2.2 < k then (i, j, k) else best

/-- One row of the longest-match search: fold `bmStep` over every start
position `j` of the second range. -/
def bmRow (a b : List Char) (ahi bhi blo : Nat) (best : Nat × Nat × Nat) (i : Nat) :
    Nat × Nat × Nat :=
  (List.range' blo (bhi - blo)).foldl (bmStep a b ahi bhi i) best

/-- The longest matching block of `a[alo:ahi]` and `b[blo:bhi]`; ties are
broken towards the earliest start in `a`, then in `b`, as
`SequenceMatcher.find_longest_match` documents.  Returns
`(besti, bestj, bestsize)`. -/
def bestMatch (a b : List Char) (alo ahi blo bhi : Nat) : Nat × Nat × Nat :=
  (List.range' alo (ahi - alo)).foldl (bmRow a b ahi bhi blo) (alo, blo, 0)

/-- The matching blocks of `a[alo:ahi]` and `b[blo:bhi]`: recursively the
longest block together with the blocks of the pieces to its left and to its
right (`SequenceMatcher.get_matching_blocks`).  `fuel` dominates the
recursion depth. -/
def matchingBlocks (a b : List Char) : Nat → Nat → Nat → Nat → Nat → List (Nat × Nat × Nat)
  | 0, _, _, _, _ => []
  | fuel + 1, alo, ahi, blo, bhi =>
    let m := bestMatch a b alo ahi blo bhi
    if m.2.2 = 0 then []
    else
      matchingBlocks a b fuel alo m.1 blo m.2.1 ++ [m] ++
        matchingBlocks a b fuel (m.1 + m.2.2) ahi (m.2.1 + m.2.2) bhi

/-- Total size of the matching blocks of `a` and `b`. -/
def matchTotal (a b : List Char) : Nat :=
  ((matchingBlocks a b (a.length + b.length + 1) 0 a.length 0 b.length).map
    (fun blk => blk.2.2)).sum

/-- `SequenceMatcher(None, a, b).ratio()`: twice the total matched size over
the total length, and `1` for two empty sequences. -/
def ratioOf (a b : List Char) : ℚ :=
  let total := a.length + b.length
  if total = 0 then 1 else (2 * (matchTotal a b : ℚ)) / total

/-- ASCII model of the regex class `\w`. -/
def isWordChar (c : Char) : Bool := c.isAlphanum || c = '_'

/-- Normalization applied by `JobDatabase._similarity_score`:
lowercase, then drop every character outside `\w` and `\s`
(`re.sub(r'[^\w\s]', '', s.lower())`). -/
def normalizeTitle (s : String) : List Char :=
  (s.data.map Char.toLower).filter (fun c => isWordChar c || c.isWhitespace)

/-- `JobDatabase._similarity_score`: the `SequenceMatcher` ratio of the two
normalized titles. -/
def similarityScore (s1 s2 : String) : ℚ :=
  ratioOf (normalizeTitle s1) (normalizeTitle s2)

lemma commonRun_self (l : List Char) : commonRun l l = l.length := by
  induction l with
  | nil => rfl
  | cons x xs ih => simp [commonRun, ih]

lemma matchLen_le (a b : List Char) (i j ahi bhi : Nat) :
    matchLen a b i j ahi bhi ≤ ahi - i := by
  unfold matchLen
  exact le_trans (min_le_right _ _) (min_le_left _ _)

/-- A fold leaves its seed unchanged when every step fixes it. -/
lemma foldl_fixed {α β : Type} (f : β → α → β) (l : List α) (b : β)
    (h : ∀ x ∈ l, f b x = b) : l.foldl f b = b := by
  induction l with
  | nil => rfl
  | cons x xs ih =>
    simp only [List.foldl_cons, h x (by simp)]
    exact ih (fun y hy => h y (by simp [hy]))

/-- A candidate no longer than the running best leaves the best unchanged. -/
lemma bmStep_fixed (a b : List Char) (ahi bhi i j : Nat) (best : Nat × Nat × Nat)
    (h : matchLen a b i j ahi bhi ≤ best.2.2) :
    bmStep a b ahi bhi i best j = best := by
  unfold bmStep
  exact if_neg (not_lt.mpr h)

/-- A whole row of candidates no longer than the running best leaves the best
unchanged. -/
lemma bmRow_fixed (a b : List Char) (ahi bhi blo i : Nat) (best : Nat × Nat × Nat)
    (h : ∀ j, matchLen a b i j ahi bhi ≤ best.2.2) :
    bmRow a b ahi bhi blo best i = best :=
  foldl_fixed _ _ _ (fun j _ => bmStep_fixed a b ahi bhi i j best (h j))

/-- On two copies of the same list, the longest matching block is the whole
list. -/
lemma bestMatch_self (a : List Char) :
    bestMatch a a 0 a.length 0 a.length = (0, 0, a.length) := by
  rcases Nat.eq_zero_or_pos a.length with h0 | hpos
  · simp [bestMatch, h0]
  · unfold bestMatch
    have hrange : List.range' 0 (a.length - 0) = 0 :: List.range' 1 (a.length - 1) := by
      have : a.length - 0 = (a.length - 1) + 1 := by omega
      rw [this, List.range'_succ]
    rw [hrange, List.foldl_cons]
    have hk : matchLen a a 0 0 a.length a.length = a.length := by
      simp [matchLen, commonRun_self]
    have hrow : bmRow a a a.length a.length 0 (0, 0, 0) 0 = (0, 0, a.length) := by
      unfold bmRow
      rw [hrange, List.foldl_cons]
      have hstep : bmStep a a a.length a.length 0 (0, 0, 0) 0 = (0, 0, a.length) := by
        unfold bmStep
        rw [hk]
        simp [hpos]
      rw [hstep]
      exact foldl_fixed _ _ _
        (fun j _ => bmStep_fixed a a a.length a.length 0 j _
          (by simpa using matchLen_le a a 0 j a.length a.length))
    rw [hrow]
    exact foldl_fixed _ _ _
      (fun i _ => bmRow_fixed a a a.length a.length 0 i _
        (fun j => le_trans (matchLen_le a a i j a.length a.length) (by simp)))

/-- An empty range yields no matching blocks. -/
lemma matchingBlocks_empty_range (a b : List Char) (fuel alo blo : Nat) :
    matchingBlocks a b fuel alo alo blo blo = [] := by
  cases fuel with
  | zero => rfl
  | succ fuel =>
    have hbm : bestMatch a b alo alo blo blo = (alo, blo, 0) := by
      simp [bestMatch]
    simp [matchingBlocks, hbm]

/-- On two copies of the same list, the matching blocks are the single
full-length block. -/
lemma matchingBlocks_self (a : List Char) (fuel : Nat) (h : a.length ≠ 0) :
    matchingBlocks a a (fuel + 1) 0 a.length 0 a.length = [(0, 0, a.length)] := by
  rw [matchingBlocks, bestMatch_self]
  simp only [h, if_false]
  simp [Nat.zero_add, matchingBlocks_empty_range]

/-- The total matched size of a sequence against itself is its length. -/
lemma matchTotal_self (a : List Char) : matchTotal a a = a.length := by
  rcases Nat.eq_zero_or_pos a.length with h0 | hpos
  · simp [matchTotal, h0, matchingBlocks_empty_range]
  · unfold matchTotal
    rw [show a.length + a.length + 1 = (a.length + a.length) + 1 from rfl]
    rw [matchingBlocks_self a _ (by omega)]
    simp

/-- The ratio of a sequence with itself is `1`. -/
lemma ratioOf_self (a : List Char) : ratioOf a a = 1 := by
  rcases Nat.eq_zero_or_pos a.length with h0 | hpos
  · simp [ratioOf, h0]
  · have hne : a.length + a.length ≠ 0 := by omega
    unfold ratioOf
    simp only [hne, if_false, matchTotal_self]
    have hq : ((a.length : ℚ)) ≠ 0 := by
      exact_mod_cast Nat.pos_iff_ne_zero.mp hpos
    push_cast
    field_simp
    ring

/-- A title is fully similar to itself. -/
lemma similarityScore_self (s : String) : similarityScore s s = 1 := by
  unfold similarityScore
  exact ratioOf_self _

/-- The dedup threshold of `JobDatabase._find_duplicate` (`0.85`). -/
def simThreshold : ℚ := 17 / 20

/-- Integer-arithmetic form of the threshold test
`similarityScore t1 t2 > 0.85`, used so that concrete instances can be
evaluated without rational normalization. -/
def simGT (t1 t2 : String) : Bool :=
  let a := normalizeTitle t1
  let b := normalizeTitle t2
  if a.length + b.length = 0 then true
  else 17 * (a.length + b.length) < 40 * matchTotal a b

/-- Arithmetic core of `simGT_iff`. -/
lemma simGT_iff_aux (t1 t2 : String) :
    simGT t1 t2 = true ↔ (17 / 20 : ℚ) < similarityScore t1 t2 := by
  unfold simGT similarityScore ratioOf
  set a := normalizeTitle t1 with ha
  set b := normalizeTitle t2 with hb
  rcases Nat.eq_zero_or_pos (a.length + b.length) with h0 | hpos
  · simp [h0]
    norm_num
  · have hne : a.length + b.length ≠ 0 := by omega
    simp only [hne, if_false, decide_eq_true_eq]
    have hTq : (0 : ℚ) < ((a.length + b.length : Nat) : ℚ) := by exact_mod_cast hpos
    rw [div_lt_div_iff₀ (by norm_num) (by push_cast at hTq ⊢; exact hTq)]
    constructor
    · intro h
      have h2 : (17 * (a.length + b.length) : ℚ) < (40 * matchTotal a b : ℚ) := by
        exact_mod_cast h
      push_cast at h2 ⊢
      nlinarith [h2]
    · intro h
      have h2 : (17 * (a.length + b.length) : ℚ) < (40 * matchTotal a b : ℚ) := by
        push_cast at h ⊢
        nlinarith [h]
      exact_mod_cast h2

/-- The integer threshold test agrees with the rational one. -/
lemma simGT_iff (t1 t2 : String) :
    simGT t1 t2 = true ↔ simThreshold < similarityScore t1 t2 := by
  unfold simThreshold
  exact simGT_iff_aux t1 t2

/-- A failed integer threshold test is a below-threshold similarity. -/
lemma simGT_false_iff (t1 t2 : String) :
    simGT t1 t2 = false ↔ similarityScore t1 t2 ≤ simThreshold := by
  rw [← not_lt, ← simGT_iff, Bool.not_eq_true]

/-- The integer threshold test is the decision procedure for the rational
threshold comparison. -/
lemma simGT_eq_decide (t1 t2 : String) :
    simGT t1 t2 = decide (simThreshold < similarityScore t1 t2) := by
  by_cases h : simThreshold < similarityScore t1 t2
  · rw [(simGT_iff t1 t2).mpr h, decide_eq_true h]
  · rw [(simGT_false_iff t1 t2).mpr (not_lt.mp h), decide_eq_false h]

/-! ## Persistence and dedup engine (`src/database/schema.py`) -/

/-- The `JobListing` dataclass: a scraped record before insertion. -/
structure JobListing where
  title : String
  company : String
  location : String
  description : String
  salary : Option String := none
  job_type : Option String := none
  posted_date : Option String := none
  url : String := ""
  source : String := ""
  scraped_at : String := ""
  employment_type : Option String := none
deriving Repr, DecidableEq

/-- A row of the `jobs` table, with every column the pipeline reads or
writes.  `created_at` and `updated_at` model the SQLite timestamps as
naturals. -/
structure JobRow where
  id : Nat
  title : String
  company : String
  location : String
  description : String
  salary : Option String
  job_type : Option String
  posted_date : Option String
  url : String
  source : String
  scraped_at : String
  created_at : Nat
  updated_at : Nat
  is_applied : Bool
  is_edited : Bool
  employment_type : Option String
  notes : Option String
  status : String
  has_full_description : Bool
  cleaned_description : Option String
  tags : Option String
  entities : Option String
  llm_processed : Bool
deriving Repr, DecidableEq

/-- The `jobs` table: rows in rowid order, plus the next fresh id. -/
structure JobDB where
  rows : List JobRow
  nextId : Nat
deriving Repr, DecidableEq

/-- The empty store. -/
def emptyDB : JobDB := { rows := [], nextId := 1 }

/-- `JobDatabase._find_duplicate`: among rows sharing the exact company and
location, the first whose stored title is more than `0.85`-similar to the
incoming title. -/
def findDuplicate (db : JobDB) (job : JobListing) : Option JobRow :=
  (db.rows.filter (fun r => r.company == job.company && r.location == job.location)).find?
    (fun r => decide (simThreshold < similarityScore job.title r.title))

/-- The new row built by the `INSERT` branch of `insert_job`: scraper fields
from the record, user-owned fields at their SQL defaults. -/
def newRowOf (job : JobListing) (id now : Nat) : JobRow :=
  { id := id
    title := job.title
    company := job.company
    location := job.location
    description := job.description
    salary := job.salary
    job_type := job.job_type
    posted_date := job.posted_date
    url := job.url
    source := job.source
    scraped_at := job.scraped_at
    created_at := now
    updated_at := now
    is_applied := false
    is_edited := false
    employment_type := job.employment_type
    notes := none
    status := "new"
    has_full_description := false
    cleaned_description := none
    tags := none
    entities := none
    llm_processed := false }

/-- Whether a row with the exact `(company, title, location)` natural key of
the record exists: the `UNIQUE(company, title, location)` constraint. -/
def hasExactKey (db : JobDB) (job : JobListing) : Bool :=
  db.rows.any (fun r =>
    r.company == job.company && r.title == job.title && r.location == job.location)

/-- The `INSERT OR IGNORE` tail of `insert_job`: on a `UNIQUE` conflict the
row is silently dropped, and the function still reports
`(True, "Added new job")`; otherwise the new row is appended. -/
def insertOrIgnore (db : JobDB) (job : JobListing) (now : Nat) : JobDB × Bool × String :=
  if hasExactKey db job then (db, true, "Added new job")
  else
    ({ rows := db.rows ++ [newRowOf job db.nextId now], nextId := db.nextId + 1 },
      true, "Added new job")

/-- The `UPDATE` branch of `insert_job`: refresh the scraper-owned fields of
the row with the duplicate id. -/
def updateDuplicate (db : JobDB) (job : JobListing) (dupId now : Nat) : JobDB :=
  { db with
    rows := db.rows.map (fun r =>
      if r.id = dupId then
        { r with
          title := job.title
          description := job.description
          salary := job.salary
          job_type := job.job_type
          posted_date := job.posted_date
          url := job.url
          source := job.source
          scraped_at := job.scraped_at
          updated_at := now
          employment_type := job.employment_type }
      else r) }

/-- `JobDatabase.insert_job` with the dedup lookup and the final insert
taken on possibly different states: `dbLookup` is the state
`_find_duplicate` sees, `dbWrite` the state the write lands on.  The two
coincide except under a write race between the lookup and the insert. -/
def insertJobRaced (dbLookup dbWrite : JobDB) (job : JobListing) (now : Nat) :
    JobDB × Bool × String :=
  match findDuplicate dbLookup job with
  | some dup =>
    if dup.is_edited then (dbWrite, false, "Skipped (duplicate of edited entry)")
    else (updateDuplicate dbWrite job dup.id now, true, "Updated existing duplicate")
  | none => insertOrIgnore dbWrite job now

/-- `JobDatabase.insert_job`: lookup and write on the same state. -/
def insertJob (db : JobDB) (job : JobListing) (now : Nat) : JobDB × Bool × String :=
  insertJobRaced db db job now

/-- `JobDatabase.update_job_description`. -/
def updateJobDescription (db : JobDB) (jobId : Nat) (description : String)
    (markFull : Bool) (now : Nat) : JobDB :=
  { db with
    rows := db.rows.map (fun r =>
      if r.id = jobId then
        if markFull then
          { r with description := description, has_full_description := true,
                   updated_at := now }
        else { r with description := description, updated_at := now }
      else r) }

/-- `JobDatabase.mark_job_full_description`. -/
def markJobFullDescription (db : JobDB) (jobId : Nat) (now : Nat) : JobDB :=
  { db with
    rows := db.rows.map (fun r =>
      if r.id = jobId then { r with has_full_description := true, updated_at := now }
      else r) }

/-- `JobDatabase.update_job_llm_data`. -/
def updateJobLlmData (db : JobDB) (jobId : Nat)
    (cleaned tags entities : String) (now : Nat) : JobDB :=
  { db with
    rows := db.rows.map (fun r =>
      if r.id = jobId then
        { r with cleaned_description := some cleaned, tags := some tags,
                 entities := some entities, llm_processed := true,
                 updated_at := now }
      else r) }

/-- The user-owned fields a pipeline write must never touch. -/
def preservesUserFields (r r2 : JobRow) : Prop :=
  r2.is_edited = r.is_edited ∧ r2.is_applied = r.is_applied ∧
    r2.status = r.status ∧ r2.notes = r.notes

/-- Frame condition of a single-row write: same row count, user-owned
fields untouched everywhere, and rows other than the target untouched
entirely. -/
def frameOK (db db2 : JobDB) (target : Nat) : Prop :=
  db2.rows.length = db.rows.length ∧
    ∀ i (hi : i < db.rows.length) (hi2 : i < db2.rows.length),
      preservesUserFields (db.rows.get ⟨i, hi⟩) (db2.rows.get ⟨i, hi2⟩) ∧
        ((db.rows.get ⟨i, hi⟩).id ≠ target →
          db2.rows.get ⟨i, hi2⟩ = db.rows.get ⟨i, hi⟩)

/-- `findDuplicate` with the integer-arithmetic threshold test, for
evaluating concrete instances. -/
def findDuplicateB (db : JobDB) (job : JobListing) : Option JobRow :=
  (db.rows.filter (fun r => r.company == job.company && r.location == job.location)).find?
    (fun r => simGT job.title r.title)

lemma findDuplicate_eq (db : JobDB) (job : JobListing) :
    findDuplicate db job = findDuplicateB db job := by
  unfold findDuplicate findDuplicateB
  congr 1
  funext r
  exact (simGT_eq_decide job.title r.title).symm

/-- `insertJobRaced` with the integer-arithmetic threshold test. -/
def insertJobRacedB (dbLookup dbWrite : JobDB) (job : JobListing) (now : Nat) :
    JobDB × Bool × String :=
  match findDuplicateB dbLookup job with
  | some dup =>
    if dup.is_edited then (dbWrite, false, "Skipped (duplicate of edited entry)")
    else (updateDuplicate dbWrite job dup.id now, true, "Updated existing duplicate")
  | none => insertOrIgnore dbWrite job now

lemma insertJobRaced_eq (dbLookup dbWrite : JobDB) (job : JobListing) (now : Nat) :
    insertJobRaced dbLookup dbWrite job now = insertJobRacedB dbLookup dbWrite job now := by
  unfold insertJobRaced insertJobRacedB
  rw [findDuplicate_eq]

lemma insertJob_eq (db : JobDB) (job : JobListing) (now : Nat) :
    insertJob db job now = insertJobRacedB db db job now :=
  insertJobRaced_eq db db job now

/-- Inserting into the empty store appends the fresh row. -/
lemma insertJob_empty (job : JobListing) (now : Nat) :
    insertJob emptyDB job now =
      ({ rows := [newRowOf job 1 now], nextId := 2 }, true, "Added new job") := rfl

/-- Lookup against a single-row store whose row matches company and
location: found exactly when the similarity clears the threshold. -/
lemma findDuplicate_single_hit (j1 j2 : JobListing) (id now k : Nat)
    (hc : j2.company = j1.company) (hl : j2.location = j1.location)
    (h : simThreshold < similarityScore j2.title j1.title) :
    findDuplicate { rows := [newRowOf j1 id now], nextId := k } j2 =
      some (newRowOf j1 id now) := by
  unfold findDuplicate
  have hfil : (({ rows := [newRowOf j1 id now], nextId := k } : JobDB)).rows.filter
      (fun r => r.company == j2.company && r.location == j2.location) =
      [newRowOf j1 id now] := by
    simp [newRowOf, hc, hl]
  rw [hfil]
  simp [List.find?, newRowOf, h]

/-- Lookup against a single-row store whose row matches company and
location: missed exactly when the similarity does not clear the
threshold. -/
lemma findDuplicate_single_miss (j1 j2 : JobListing) (id now k : Nat)
    (h : similarityScore j2.title j1.title ≤ simThreshold) :
    findDuplicate { rows := [newRowOf j1 id now], nextId := k } j2 = none := by
  unfold findDuplicate
  by_cases hp : ((newRowOf j1 id now).company == j2.company &&
      (newRowOf j1 id now).location == j2.location) = true
  · have hfil : (({ rows := [newRowOf j1 id now], nextId := k } : JobDB)).rows.filter
        (fun r => r.company == j2.company && r.location == j2.location) =
        [newRowOf j1 id now] := by
      simp only [List.filter_cons, hp, if_true, List.filter_nil]
    rw [hfil]
    simp [List.find?, newRowOf, not_lt.mpr h]
  · have hp2 : ((newRowOf j1 id now).company == j2.company &&
        (newRowOf j1 id now).location == j2.location) = false := by
      revert hp
      cases ((newRowOf j1 id now).company == j2.company &&
        (newRowOf j1 id now).location == j2.location) <;> simp
    have hfil : (({ rows := [newRowOf j1 id now], nextId := k } : JobDB)).rows.filter
        (fun r => r.company == j2.company && r.location == j2.location) = [] := by
      simp only [List.filter_cons, hp2, Bool.false_eq_true, if_false, List.filter_nil]
    rw [hfil]
    rfl

/-- C1: an incoming record whose dedup lookup finds an edited stored row is
discarded: the store is returned unchanged in every field of every row, and
the reported outcome is the skipped message. -/
theorem insertJob_skips_edited (db : JobDB) (job : JobListing) (now : Nat) (dup : JobRow)
    (h1 : findDuplicate db job = some dup) (h2 : dup.is_edited = true) :
    insertJob db job now = (db, false, "Skipped (duplicate of edited entry)") := by
  unfold insertJob insertJobRaced
  rw [h1]
  simp [h2]

/-- Concrete record for the edit-protection witness. -/
def w1job : JobListing :=
  { title := "Senior Dev", company := "Acme", location := "Leeds", description := "d" }

/-- Concrete incoming record whose title differs only by punctuation. -/
def w1jobIn : JobListing := { w1job with title := "Senior Dev." }

/-- Concrete stored row carrying a user edit. -/
def w1row : JobRow := { newRowOf w1job 1 0 with is_edited := true }

/-- Concrete one-row store for the edit-protection witness. -/
def w1db : JobDB := { rows := [w1row], nextId := 2 }

theorem insertJob_skips_edited_witness :
    findDuplicate w1db w1jobIn = some w1row ∧ w1row.is_edited = true ∧
      insertJob w1db w1jobIn 9 = (w1db, false, "Skipped (duplicate of edited entry)") :=
  ⟨(findDuplicate_eq w1db w1jobIn).trans (by decide), by decide,
    insertJob_skips_edited w1db w1jobIn 9 w1row
      ((findDuplicate_eq w1db w1jobIn).trans (by decide)) (by decide)⟩

/-- C2: with identical company and location, a second insert updates in
place when the title similarity clears `0.85` (one row remains), and
inserts a new row when it does not (two rows stored). -/
theorem insertJob_dedup_threshold (j1 j2 : JobListing) (n1 n2 : Nat)
    (hc : j2.company = j1.company) (hl : j2.location = j1.location) :
    (simThreshold < similarityScore j2.title j1.title →
      (insertJob (insertJob emptyDB j1 n1).1 j2 n2).1.rows.length = 1 ∧
      (insertJob (insertJob emptyDB j1 n1).1 j2 n2).2.2 = "Updated existing duplicate") ∧
    (similarityScore j2.title j1.title ≤ simThreshold →
      (insertJob (insertJob emptyDB j1 n1).1 j2 n2).1.rows.length = 2 ∧
      (insertJob (insertJob emptyDB j1 n1).1 j2 n2).2.2 = "Added new job") := by
  have hdb1 : (insertJob emptyDB j1 n1).1 = { rows := [newRowOf j1 1 n1], nextId := 2 } := by
    rw [insertJob_empty]
  rw [hdb1]
  constructor
  · intro h
    have hfd := findDuplicate_single_hit j1 j2 1 n1 2 hc hl h
    unfold insertJob insertJobRaced
    rw [hfd]
    have hed : (newRowOf j1 1 n1).is_edited = false := rfl
    simp [hed, updateDuplicate]
  · intro h
    have hfd := findDuplicate_single_miss j1 j2 1 n1 2 h
    have hneq : (j1.title == j2.title) = false := by
      rw [beq_eq_false_iff_ne]
      intro he
      rw [he] at h
      rw [similarityScore_self] at h
      unfold simThreshold at h
      norm_num at h
    unfold insertJob insertJobRaced
    rw [hfd]
    unfold insertOrIgnore
    have hkey : hasExactKey { rows := [newRowOf j1 1 n1], nextId := 2 } j2 = false := by
      unfold hasExactKey
      have hb : ((newRowOf j1 1 n1).company == j2.company &&
          (newRowOf j1 1 n1).title == j2.title &&
          (newRowOf j1 1 n1).location == j2.location) = false := by
        have ht : ((newRowOf j1 1 n1).title == j2.title) = false := by
          simpa [newRowOf] using hneq
        simp [ht]
      simp only [List.any_cons, List.any_nil, hb, Bool.false_or]
    rw [hkey]
    simp

/-- Concrete first record for the threshold witness. -/
def w2jobA : JobListing :=
  { title := "abcd", company := "Acme", location := "Leeds", description := "d" }

/-- Concrete near-duplicate record (similarity 8/9). -/
def w2jobB : JobListing := { w2jobA with title := "abcde" }

/-- Concrete dissimilar record (similarity 0). -/
def w2jobC : JobListing := { w2jobA with title := "wxyz" }

theorem insertJob_dedup_threshold_witness :
    (w2jobB.company = w2jobA.company ∧ w2jobB.location = w2jobA.location ∧
      simThreshold < similarityScore w2jobB.title w2jobA.title ∧
      (insertJob (insertJob emptyDB w2jobA 1).1 w2jobB 2).1.rows.length = 1) ∧
    (w2jobC.company = w2jobA.company ∧ w2jobC.location = w2jobA.location ∧
      similarityScore w2jobC.title w2jobA.title ≤ simThreshold ∧
      (insertJob (insertJob emptyDB w2jobA 1).1 w2jobC 2).1.rows.length = 2) :=
  ⟨⟨rfl, rfl, (simGT_iff _ _).mp (by decide),
      ((insertJob_dedup_threshold w2jobA w2jobB 1 2 rfl rfl).1
        ((simGT_iff _ _).mp (by decide))).1⟩,
    ⟨rfl, rfl, (simGT_false_iff _ _).mp (by decide),
      ((insertJob_dedup_threshold w2jobA w2jobC 1 2 rfl rfl).2
        ((simGT_false_iff _ _).mp (by decide))).1⟩⟩

/-- C4: inserting the exact same record twice leaves exactly one stored row
carrying the record, and the second call reports the duplicate-update
outcome, not the added outcome. -/
theorem insertJob_idempotent (job : JobListing) (n1 n2 : Nat) :
    (insertJob (insertJob emptyDB job n1).1 job n2).1.rows.length = 1 ∧
    (insertJob (insertJob emptyDB job n1).1 job n2).2.2 = "Updated existing duplicate" ∧
    (insertJob (insertJob emptyDB job n1).1 job n2).2.2 ≠ "Added new job" ∧
    ∃ r, (insertJob (insertJob emptyDB job n1).1 job n2).1.rows = [r] ∧
      r.title = job.title ∧ r.company = job.company ∧ r.location = job.location ∧
      r.description = job.description := by
  have hdb1 : (insertJob emptyDB job n1).1 = { rows := [newRowOf job 1 n1], nextId := 2 } := by
    rw [insertJob_empty]
  rw [hdb1]
  have hsim : simThreshold < similarityScore job.title job.title := by
    rw [similarityScore_self]
    unfold simThreshold
    norm_num
  have hfd := findDuplicate_single_hit job job 1 n1 2 rfl rfl hsim
  unfold insertJob insertJobRaced
  rw [hfd]
  dsimp only
  rw [if_neg (show ¬((newRowOf job 1 n1).is_edited = true) by simp [newRowOf])]
  have hrow : (updateDuplicate { rows := [newRowOf job 1 n1], nextId := 2 } job
      (newRowOf job 1 n1).id n2).rows =
      [{ newRowOf job 1 n1 with
          title := job.title, description := job.description, salary := job.salary,
          job_type := job.job_type, posted_date := job.posted_date, url := job.url,
          source := job.source, scraped_at := job.scraped_at, updated_at := n2,
          employment_type := job.employment_type }] := by
    unfold updateDuplicate
    simp
  refine ⟨by simp [hrow], rfl, by dsimp only; decide, ?_⟩
  exact ⟨_, hrow, rfl, rfl, rfl, rfl⟩

/-- C3: the record raced into the write-time store. -/
def w3job : JobListing :=
  { title := "Engineer", company := "Acme", location := "Leeds", description := "d" }

/-- C3: write-time store already holding the exact natural key. -/
def w3db : JobDB := { rows := [newRowOf w3job 1 0], nextId := 2 }

/-- C3: when the dedup lookup saw no duplicate but the write-time store
already holds the exact `(company, title, location)` key, the
`INSERT OR IGNORE` drops the row silently and the call still reports
`"Added new job"` with success — not the claimed
`"Duplicate (exact match)"` skipped outcome — while the store is left
unchanged. -/
theorem insertJob_race_reports_added :
    findDuplicate emptyDB w3job = none ∧
      hasExactKey w3db w3job = true ∧
      insertJobRaced emptyDB w3db w3job 5 = (w3db, true, "Added new job") ∧
      (insertJobRaced emptyDB w3db w3job 5).2.2 ≠ "Duplicate (exact match)" := by
  refine ⟨rfl, by decide, ?_, ?_⟩
  · rw [insertJobRaced_eq]
    decide
  · rw [insertJobRaced_eq]
    decide

/-- Every row function that preserves the user-owned fields yields, mapped
over the target row only, a write satisfying the frame condition. -/
lemma frameOK_mapIf (db : JobDB) (target : Nat) (f : JobRow → JobRow)
    (hp : ∀ r, preservesUserFields r (f r)) :
    frameOK db
      { db with rows := db.rows.map (fun r => if r.id = target then f r else r) }
      target := by
  constructor
  · simp
  · intro i hi hi2
    have hg : (({ db with
        rows := db.rows.map (fun r => if r.id = target then f r else r) } : JobDB)).rows.get
          ⟨i, hi2⟩ =
        (fun r => if r.id = target then f r else r) (db.rows.get ⟨i, hi⟩) := by
      simp [List.get_eq_getElem]
    rw [hg]
    dsimp only
    by_cases hid : (db.rows.get ⟨i, hi⟩).id = target
    · rw [if_pos hid]
      exact ⟨hp _, fun hne => absurd hid hne⟩
    · rw [if_neg hid]
      exact ⟨⟨rfl, rfl, rfl, rfl⟩, fun _ => rfl⟩

/-- C10: none of the pipeline write paths — the dedup update branch of
`insert_job`, `update_job_description`, `mark_job_full_description`,
`update_job_llm_data` — touches `is_edited`, `is_applied`, `status` or
`notes` on any row, and each modifies no row other than its target. -/
theorem pipeline_writes_preserve_user_fields
    (db : JobDB) (jobId : Nat) (descr : String) (markFull : Bool)
    (cd tg en : String) (now : Nat) (job : JobListing) (dup : JobRow)
    (hfd : findDuplicate db job = some dup) (hed : dup.is_edited = false) :
    frameOK db (updateJobDescription db jobId descr markFull now) jobId ∧
    frameOK db (markJobFullDescription db jobId now) jobId ∧
    frameOK db (updateJobLlmData db jobId cd tg en now) jobId ∧
    (insertJob db job now).1 = updateDuplicate db job dup.id now ∧
    frameOK db (insertJob db job now).1 dup.id := by
  have hins : (insertJob db job now).1 = updateDuplicate db job dup.id now := by
    unfold insertJob insertJobRaced
    rw [hfd]
    dsimp only
    rw [if_neg (by simp [hed])]
  refine ⟨?_, ?_, ?_, hins, ?_⟩
  · unfold updateJobDescription
    exact frameOK_mapIf db jobId _
      (fun r => by by_cases h : markFull <;> simp [preservesUserFields, h])
  · unfold markJobFullDescription
    exact frameOK_mapIf db jobId _ (fun r => ⟨rfl, rfl, rfl, rfl⟩)
  · unfold updateJobLlmData
    exact frameOK_mapIf db jobId _ (fun r => ⟨rfl, rfl, rfl, rfl⟩)
  · rw [hins]
    unfold updateDuplicate
    exact frameOK_mapIf db dup.id _ (fun r => ⟨rfl, rfl, rfl, rfl⟩)

/-- C10 witness store: one unedited row and one edited row. -/
def w10job : JobListing :=
  { title := "Data Engineer", company := "Initech", location := "York",
    description := "d" }

/-- C10 witness incoming record, similar in title to the first row. -/
def w10jobIn : JobListing := { w10job with title := "Data Engineer." }

/-- C10 witness first stored row (unedited). -/
def w10row1 : JobRow := newRowOf w10job 1 0

/-- C10 witness second stored row (user-edited, with notes). -/
def w10row2 : JobRow :=
  { newRowOf { w10job with title := "Clerk", company := "Globex" } 2 0 with
    is_edited := true, notes := some "mine" }

/-- C10 witness store. -/
def w10db : JobDB := { rows := [w10row1, w10row2], nextId := 3 }

theorem pipeline_writes_preserve_user_fields_witness :
    findDuplicate w10db w10jobIn = some w10row1 ∧ w10row1.is_edited = false ∧
      (frameOK w10db (updateJobDescription w10db 1 "newdesc" true 5) 1 ∧
       frameOK w10db (markJobFullDescription w10db 1 5) 1 ∧
       frameOK w10db (updateJobLlmData w10db 1 "c" "t" "e" 5) 1 ∧
       (insertJob w10db w10jobIn 5).1 = updateDuplicate w10db w10jobIn w10row1.id 5 ∧
       frameOK w10db (insertJob w10db w10jobIn 5).1 w10row1.id) :=
  ⟨(findDuplicate_eq w10db w10jobIn).trans (by decide), by decide,
    pipeline_writes_preserve_user_fields w10db 1 "newdesc" true "c" "t" "e" 5
      w10jobIn w10row1
      ((findDuplicate_eq w10db w10jobIn).trans (by decide)) (by decide)⟩

/-! ## AI key pool rate limiting (`KeyRotator`, `src/llm/processor.py`)

Timestamps are rationals (exact model of continuous time).  A key is its
deque of recent request timestamps, oldest first; the deque `maxlen` equals
the quota and is never reached, since a timestamp is appended only when the
cleaned deque is strictly under quota. -/

/-- `RATE_LIMIT_PER_KEY` (40 requests per window). -/
def RATE_LIMIT_PER_KEY : Nat := 40

/-- `RATE_WINDOW_SECONDS` (60 seconds). -/
def RATE_WINDOW_SECONDS : ℚ := 60

/-- `KeyRotator._clean_old_requests`: pop timestamps strictly older than the
window off the front. -/
def cleanOld (t : ℚ) (times : List ℚ) : List ℚ :=
  times.dropWhile (fun t0 => decide (RATE_WINDOW_SECONDS < t - t0))

/-- `KeyRotator.get_available_key` at time `t` over the per-key timestamp
deques: scan keys in order, cleaning each scanned key; grant the first key
strictly under quota, appending `t` to it in the same step; keys after the
granted one are left untouched.  Returns the granted index and the new
deques. -/
def getAvailableKey (quota : Nat) (t : ℚ) : List (List ℚ) → Option Nat × List (List ℚ)
  | [] => (none, [])
  | k :: rest =>
    let c := cleanOld t k
    if c.length < quota then (some 0, (c ++ [t]) :: rest)
    else
      let r := getAvailableKey quota t rest
      (r.1.map (· + 1), c :: r.2)

/-- Scan of `KeyRotator.get_wait_time`: `none` models the early `return 0`
on a key under quota; `some none` models `min_wait` still infinite;
`some (some w)` the minimum residual wait seen. -/
def getWaitAux (quota : Nat) (t : ℚ) : List (List ℚ) → Option (Option ℚ)
  | [] => some none
  | k :: rest =>
    let c := cleanOld t k
    if c.length < quota then none
    else
      match getWaitAux quota t rest with
      | none => none
      | some m =>
        match c with
        | [] => some m
        | t0 :: _ =>
          let w := max 0 (RATE_WINDOW_SECONDS - (t - t0))
          some (some (match m with | none => w | some mv => min w mv))

/-- `KeyRotator.get_wait_time`: `0` as soon as any key is under quota, else
the minimum residual window of any key's oldest timestamp, and `1.0` when
no key produced a candidate. -/
def getWaitTime (quota : Nat) (t : ℚ) (ks : List (List ℚ)) : ℚ :=
  match getWaitAux quota t ks with
  | none => 0
  | some none => 1
  | some (some w) => w

/-- Run a sequence of acquisition calls through `get_available_key`,
threading the deque state. -/
def runKeys (quota : Nat) : List ℚ → List (List ℚ) → List (List ℚ)
  | [], ks => ks
  | t :: ts, ks => runKeys quota ts (getAvailableKey quota t ks).2

/-- Ghost-instrumented scan of `get_available_key`: each key carries, next
to its live deque, the append-only log of every timestamp it was ever
granted. -/
def scanH (quota : Nat) (t : ℚ) :
    List (List ℚ × List ℚ) → Option Nat × List (List ℚ × List ℚ)
  | [] => (none, [])
  | p :: rest =>
    let c := cleanOld t p.1
    if c.length < quota then (some 0, (c ++ [t], p.2 ++ [t]) :: rest)
    else
      let r := scanH quota t rest
      (r.1.map (· + 1), (c, p.2) :: r.2)

/-- Run a sequence of acquisition calls through the ghost-instrumented
scan. -/
def runH (quota : Nat) : List ℚ → List (List ℚ × List ℚ) → List (List ℚ × List ℚ)
  | [], ps => ps
  | t :: ts, ps => runH quota ts (scanH quota t ps).2

/-- Number of grant timestamps inside the closed window `[w, w + 60]`. -/
def countIn (w : ℚ) (l : List ℚ) : Nat :=
  (l.filter (fun g => decide (w ≤ g) && decide (g ≤ w + RATE_WINDOW_SECONDS))).length

/-- Invariant tying a key's live deque to its grant log at a time bound
`t0`: the deque is a suffix of the log, everything cleaned away fell out of
the window before `t0`, and no grant is in the future. -/
def KeyInv (t0 : ℚ) (p : List ℚ × List ℚ) : Prop :=
  (∃ pre, p.2 = pre ++ p.1 ∧ ∀ g ∈ pre, g < t0 - RATE_WINDOW_SECONDS) ∧
    ∀ g ∈ p.2, g ≤ t0

/-- Pool invariant: every key satisfies `KeyInv` and its grant log respects
the quota in every window. -/
def PoolInv (quota : Nat) (t0 : ℚ) (ps : List (List ℚ × List ℚ)) : Prop :=
  ∀ p ∈ ps, KeyInv t0 p ∧ ∀ w, countIn w p.2 ≤ quota

/-- Cleaning splits off a prefix of timestamps that fell out of the
window. -/
lemma cleanOld_decomp (t : ℚ) (l : List ℚ) :
    ∃ d, l = d ++ cleanOld t l ∧ ∀ x ∈ d, RATE_WINDOW_SECONDS < t - x := by
  refine ⟨l.takeWhile (fun t0 => decide (RATE_WINDOW_SECONDS < t - t0)),
    (List.takeWhile_append_dropWhile _ _).symm, ?_⟩
  intro x hx
  have h := List.mem_takeWhile_imp hx
  simpa using h

/-- The key invariant is monotone in the time bound. -/
lemma keyInv_mono (t0 t : ℚ) (ht : t0 ≤ t) (p : List ℚ × List ℚ)
    (h : KeyInv t0 p) : KeyInv t p := by
  obtain ⟨⟨pre, hs, hold⟩, hle⟩ := h
  exact ⟨⟨pre, hs, fun g hg => lt_of_lt_of_le (hold g hg) (by linarith)⟩,
    fun g hg => le_trans (hle g hg) ht⟩

/-- Cleaning a key at a later time preserves the key invariant. -/
lemma keyInv_clean (t0 t : ℚ) (ht : t0 ≤ t) (times grants : List ℚ)
    (h : KeyInv t0 (times, grants)) : KeyInv t (cleanOld t times, grants) := by
  obtain ⟨⟨pre, hs, hold⟩, hle⟩ := h
  dsimp only at hs
  obtain ⟨d, hd, hdold⟩ := cleanOld_decomp t times
  refine ⟨⟨pre ++ d, ?_, ?_⟩, fun g hg => le_trans (hle g hg) ht⟩
  · show grants = (pre ++ d) ++ cleanOld t times
    rw [List.append_assoc, hs]
    exact congrArg (fun l => pre ++ l) hd
  · intro g hg
    rcases List.mem_append.mp hg with hg | hg
    · exact lt_of_lt_of_le (hold g hg) (by linarith)
    · have := hdold g hg
      linarith

/-- Granting at a later time preserves the key invariant. -/
lemma keyInv_grant (t0 t : ℚ) (ht : t0 ≤ t) (times grants : List ℚ)
    (h : KeyInv t0 (times, grants)) :
    KeyInv t (cleanOld t times ++ [t], grants ++ [t]) := by
  obtain ⟨⟨pre, hs, hold⟩, hle⟩ := h
  dsimp only at hs
  obtain ⟨d, hd, hdold⟩ := cleanOld_decomp t times
  refine ⟨⟨pre ++ d, ?_, ?_⟩, ?_⟩
  · show grants ++ [t] = (pre ++ d) ++ (cleanOld t times ++ [t])
    rw [hs]
    conv_lhs => rw [hd]
    simp [List.append_assoc]
  · intro g hg
    rcases List.mem_append.mp hg with hg | hg
    · exact lt_of_lt_of_le (hold g hg) (by linarith)
    · have := hdold g hg
      linarith
  · intro g hg
    rcases List.mem_append.mp hg with hg | hg
    · exact le_trans (hle g hg) ht
    · simp at hg
      rw [hg]

lemma countIn_append (w : ℚ) (l1 l2 : List ℚ) :
    countIn w (l1 ++ l2) = countIn w l1 + countIn w l2 := by
  unfold countIn
  rw [List.filter_append, List.length_append]

lemma countIn_le_length (w : ℚ) (l : List ℚ) : countIn w l ≤ l.length :=
  List.length_filter_le _ _

/-- A list of timestamps strictly before the window start counts zero. -/
lemma countIn_old_zero (w : ℚ) (l : List ℚ) (h : ∀ x ∈ l, x < w) :
    countIn w l = 0 := by
  unfold countIn
  rw [List.length_eq_zero, List.filter_eq_nil_iff]
  intro a ha
  have := h a ha
  simp only [Bool.and_eq_true, decide_eq_true_eq, not_and]
  intro hw
  linarith

/-- A grant taken from a cleaned deque strictly under quota keeps every
window of the grant log within quota. -/
lemma count_after_grant (quota : Nat) (t0 t : ℚ) (ht : t0 ≤ t)
    (times grants : List ℚ) (hInv : KeyInv t0 (times, grants))
    (hq : (cleanOld t times).length < quota)
    (hcount : ∀ w, countIn w grants ≤ quota) :
    ∀ w, countIn w (grants ++ [t]) ≤ quota := by
  intro w
  rw [countIn_append]
  by_cases hw : w ≤ t ∧ t ≤ w + RATE_WINDOW_SECONDS
  · obtain ⟨⟨pre, hs, hold⟩, hle⟩ := hInv
    dsimp only at hs
    obtain ⟨d, hd, hdold⟩ := cleanOld_decomp t times
    have hgr : grants = (pre ++ d) ++ cleanOld t times := by
      rw [List.append_assoc, hs]
      exact congrArg (fun l => pre ++ l) hd
    have hzero : countIn w (pre ++ d) = 0 := by
      apply countIn_old_zero
      intro x hx
      have hw2 := hw.2
      rcases List.mem_append.mp hx with hx | hx
      · have := hold x hx
        linarith
      · have := hdold x hx
        linarith
    have h1 : countIn w grants ≤ (cleanOld t times).length := by
      rw [hgr, countIn_append, hzero, Nat.zero_add]
      exact countIn_le_length _ _
    have h2 : countIn w [t] ≤ 1 :=
      le_trans (countIn_le_length _ _) (by simp)
    omega
  · have hz : countIn w [t] = 0 := by
      unfold countIn
      have hb : (decide (w ≤ t) && decide (t ≤ w + RATE_WINDOW_SECONDS)) = false := by
        rcases not_and_or.mp hw with h | h
        · simp [decide_eq_false h]
        · simp [decide_eq_false h]
      simp [List.filter, hb]
    rw [hz]
    simpa using hcount w

/-- One acquisition step preserves the pool invariant. -/
lemma scanH_preserves (quota : Nat) (t0 t : ℚ) (ht : t0 ≤ t)
    (ps : List (List ℚ × List ℚ)) (h : PoolInv quota t0 ps) :
    PoolInv quota t (scanH quota t ps).2 := by
  induction ps with
  | nil =>
    intro p hp
    simp [scanH] at hp
  | cons q rest ih =>
    have hq := h q (by simp)
    have hrest : PoolInv quota t0 rest := fun p hp => h p (by simp [hp])
    unfold scanH
    by_cases hc : (cleanOld t q.1).length < quota
    · rw [if_pos hc]
      intro p hp
      rcases List.mem_cons.mp hp with hp | hp
      · subst hp
        exact ⟨keyInv_grant t0 t ht q.1 q.2 hq.1,
          count_after_grant quota t0 t ht q.1 q.2 hq.1 hc hq.2⟩
      · exact ⟨keyInv_mono t0 t ht p (hrest p hp).1, (hrest p hp).2⟩
    · rw [if_neg hc]
      intro p hp
      rcases List.mem_cons.mp hp with hp | hp
      · subst hp
        exact ⟨keyInv_clean t0 t ht q.1 q.2 hq.1, hq.2⟩
      · exact (ih hrest) p hp

/-- Along any time-ordered acquisition trace, every key's grant log stays
within quota on every window. -/
lemma runH_counts (quota : Nat) (ts : List ℚ) (t0 : ℚ)
    (ps : List (List ℚ × List ℚ)) (hts : List.Chain (· ≤ ·) t0 ts)
    (h : PoolInv quota t0 ps) :
    ∀ p ∈ runH quota ts ps, ∀ w, countIn w p.2 ≤ quota := by
  induction ts generalizing t0 ps with
  | nil =>
    intro p hp w
    exact (h p hp).2 w
  | cons t ts ih =>
    obtain ⟨h1, h2⟩ := List.chain_cons.mp hts
    exact ih t (scanH quota t ps).2 h2 (scanH_preserves quota t0 t h1 ps h)

/-- The ghost-instrumented scan projects onto the code's scan. -/
lemma scanH_proj (quota : Nat) (t : ℚ) (ps : List (List ℚ × List ℚ)) :
    (scanH quota t ps).1 = (getAvailableKey quota t (ps.map Prod.fst)).1 ∧
      (scanH quota t ps).2.map Prod.fst =
        (getAvailableKey quota t (ps.map Prod.fst)).2 := by
  induction ps with
  | nil => exact ⟨rfl, rfl⟩
  | cons q rest ih =>
    unfold scanH getAvailableKey
    dsimp only [List.map_cons]
    by_cases hc : (cleanOld t q.1).length < quota
    · rw [if_pos hc, if_pos hc]
      exact ⟨rfl, by simp⟩
    · rw [if_neg hc, if_neg hc]
      exact ⟨by dsimp only; rw [ih.1], by dsimp only; rw [List.map_cons, ih.2]⟩

/-- The ghost-instrumented trace projects onto the code's trace. -/
lemma runH_proj (quota : Nat) (ts : List ℚ) (ps : List (List ℚ × List ℚ)) :
    (runH quota ts ps).map Prod.fst = runKeys quota ts (ps.map Prod.fst) := by
  induction ts generalizing ps with
  | nil => rfl
  | cons t ts ih =>
    show (runH quota ts (scanH quota t ps).2).map Prod.fst =
      runKeys quota ts (getAvailableKey quota t (ps.map Prod.fst)).2
    rw [ih, (scanH_proj quota t ps).2]

/-- A key is granted exactly when some cleaned key is under quota. -/
lemma getAvailableKey_isSome_iff (quota : Nat) (t : ℚ) (ks : List (List ℚ)) :
    (getAvailableKey quota t ks).1.isSome = true ↔
      ∃ k ∈ ks, (cleanOld t k).length < quota := by
  induction ks with
  | nil => simp [getAvailableKey]
  | cons k rest ih =>
    unfold getAvailableKey
    by_cases hc : (cleanOld t k).length < quota
    · rw [if_pos hc]
      simp [hc]
    · rw [if_neg hc]
      dsimp only
      have hm : (Option.map (fun x => x + 1) (getAvailableKey quota t rest).1).isSome =
          (getAvailableKey quota t rest).1.isSome := by
        cases (getAvailableKey quota t rest).1 <;> rfl
      rw [hm, ih]
      constructor
      · rintro ⟨k2, hk2, hlen⟩
        exact ⟨k2, by simp [hk2], hlen⟩
      · rintro ⟨k2, hk2, hlen⟩
        rcases List.mem_cons.mp hk2 with rfl | hk2
        · exact absurd hlen hc
        · exact ⟨k2, hk2, hlen⟩

/-- A granted key receives exactly the grant timestamp, appended to its
cleaned deque. -/
lemma getAvailableKey_grant (quota : Nat) (t : ℚ) (ks : List (List ℚ)) (i : Nat)
    (h : (getAvailableKey quota t ks).1 = some i) :
    ∃ k, ks.get? i = some k ∧ (cleanOld t k).length < quota ∧
      (getAvailableKey quota t ks).2.get? i = some (cleanOld t k ++ [t]) := by
  induction ks generalizing i with
  | nil => simp [getAvailableKey] at h
  | cons k rest ih =>
    unfold getAvailableKey at h ⊢
    by_cases hc : (cleanOld t k).length < quota
    · rw [if_pos hc] at h ⊢
      dsimp only at h
      obtain rfl : (0 : Nat) = i := Option.some.inj h
      exact ⟨k, rfl, hc, rfl⟩
    · rw [if_neg hc] at h ⊢
      dsimp only at h ⊢
      cases hr : (getAvailableKey quota t rest).1 with
      | none =>
        rw [hr] at h
        simp at h
      | some j =>
        rw [hr] at h
        rw [show Option.map (fun x => x + 1) (some j) = some (j + 1) from rfl] at h
        obtain rfl : j + 1 = i := Option.some.inj h
        obtain ⟨k2, hk1, hk2, hk3⟩ := ih j hr
        exact ⟨k2, by simpa using hk1, hk2, by simpa using hk3⟩

/-- Cleaning keeps a head timestamp still inside the window (and with it
the whole deque). -/
lemma cleanOld_cons_keep (t t0 : ℚ) (rest : List ℚ) (h : t - t0 ≤ 60) :
    cleanOld t (t0 :: rest) = t0 :: rest := by
  unfold cleanOld RATE_WINDOW_SECONDS
  rw [List.dropWhile_cons, decide_eq_false (not_lt.mpr h)]
  simp

/-- Cleaning drops a head timestamp that fell out of the window. -/
lemma cleanOld_cons_drop (t t0 : ℚ) (rest : List ℚ) (h : 60 < t - t0) :
    cleanOld t (t0 :: rest) = cleanOld t rest := by
  unfold cleanOld RATE_WINDOW_SECONDS
  rw [List.dropWhile_cons, decide_eq_true h]
  rfl

/-- Unfolding equation of `getAvailableKey` on a nonempty key list. -/
lemma getAvailableKey_cons (quota : Nat) (t : ℚ) (k : List ℚ) (rest : List (List ℚ)) :
    getAvailableKey quota t (k :: rest) =
      if (cleanOld t k).length < quota
      then (some 0, (cleanOld t k ++ [t]) :: rest)
      else ((getAvailableKey quota t rest).1.map (· + 1),
        cleanOld t k :: (getAvailableKey quota t rest).2) := rfl

/-- C5: the key pool grants a key exactly when, after evicting timestamps
older than the window, some key holds fewer than quota timestamps; a grant
appends its timestamp to the granted key in the same step; along any
time-ordered acquisition trace no key collects more than quota grants in
any closed 60-second window (stated on the ghost grant logs, whose state
component projects onto the code state); and, with a quota of 2 on one
key, acquisitions at times 0, 0, 1 yield two grants then a denial with a
positive reported wait, while a further acquisition at time 61 succeeds
immediately. -/
theorem keyRotator_quota_window :
    (RATE_LIMIT_PER_KEY = 40 ∧ RATE_WINDOW_SECONDS = 60) ∧
    (∀ (quota : Nat) (t : ℚ) (ks : List (List ℚ)),
      (getAvailableKey quota t ks).1.isSome = true ↔
        ∃ k ∈ ks, (cleanOld t k).length < quota) ∧
    (∀ (quota : Nat) (t : ℚ) (ks : List (List ℚ)) (i : Nat),
      (getAvailableKey quota t ks).1 = some i →
        ∃ k, ks.get? i = some k ∧ (cleanOld t k).length < quota ∧
          (getAvailableKey quota t ks).2.get? i = some (cleanOld t k ++ [t])) ∧
    (∀ (quota n : Nat) (t0 : ℚ) (ts : List ℚ), List.Chain (· ≤ ·) t0 ts →
      (∀ p ∈ runH quota ts (List.replicate n ([], [])), ∀ w, countIn w p.2 ≤ quota) ∧
      (runH quota ts (List.replicate n ([], []))).map Prod.fst =
        runKeys quota ts (List.replicate n [])) ∧
    (getAvailableKey 2 0 [[]] = (some 0, [[0]]) ∧
      getAvailableKey 2 0 [[(0 : ℚ)]] = (some 0, [[0, 0]]) ∧
      getAvailableKey 2 1 [[(0 : ℚ), 0]] = (none, [[0, 0]]) ∧
      0 < getWaitTime 2 1 [[(0 : ℚ), 0]] ∧
      getAvailableKey 2 61 [[(0 : ℚ), 0]] = (some 0, [[(61 : ℚ)]])) := by
  refine ⟨⟨rfl, rfl⟩, getAvailableKey_isSome_iff, getAvailableKey_grant, ?_,
    ?_, ?_, ?_, ?_, ?_⟩
  · intro quota n t0 ts hch
    constructor
    · apply runH_counts quota ts t0 _ hch
      intro p hp
      have hpe : p = ([], []) := List.eq_of_mem_replicate hp
      subst hpe
      exact ⟨⟨⟨[], rfl, by simp⟩, by simp⟩, fun w => by simp [countIn]⟩
    · rw [runH_proj]
      congr 1
      simp
  · rfl
  · rw [getAvailableKey_cons, cleanOld_cons_keep 0 0 [] (by norm_num)]
    norm_num
  · rw [getAvailableKey_cons, cleanOld_cons_keep 1 0 [0] (by norm_num)]
    rw [if_neg (by norm_num)]
    rfl
  · have h4 : getWaitAux 2 1 [[(0 : ℚ), 0]] =
        some (some (max 0 (RATE_WINDOW_SECONDS - (1 - 0)))) := by
      unfold getWaitAux
      rw [cleanOld_cons_keep 1 0 [0] (by norm_num)]
      rw [if_neg (by norm_num)]
      rfl
    have h5 : getWaitTime 2 1 [[(0 : ℚ), 0]] = max 0 (RATE_WINDOW_SECONDS - (1 - 0)) := by
      unfold getWaitTime
      rw [h4]
    rw [h5]
    have h6 : RATE_WINDOW_SECONDS - (1 - 0) = (59 : ℚ) := by
      unfold RATE_WINDOW_SECONDS
      norm_num
    rw [h6]
    norm_num
  · rw [getAvailableKey_cons, cleanOld_cons_drop 61 0 [0] (by norm_num),
      cleanOld_cons_drop 61 0 [] (by norm_num),
      show cleanOld (61 : ℚ) [] = [] from rfl]
    norm_num

theorem keyRotator_quota_window_witness :
    (List.Chain (· ≤ ·) (0 : ℚ) [0, 0, 1] ∧
      ∀ p ∈ runH 2 [0, 0, 1] (List.replicate 1 ([], [])), ∀ w, countIn w p.2 ≤ 2) ∧
    ((getAvailableKey 2 0 [[]]).1 = some 0 ∧
      ∃ k, ([[]] : List (List ℚ)).get? 0 = some k ∧ (cleanOld 0 k).length < 2 ∧
        (getAvailableKey 2 0 [[]]).2.get? 0 = some (cleanOld 0 k ++ [0])) :=
  ⟨⟨by simp [List.chain_cons],
      (keyRotator_quota_window.2.2.2.1 2 1 0 [0, 0, 1] (by simp [List.chain_cons])).1⟩,
    ⟨rfl, keyRotator_quota_window.2.2.1 2 0 [[]] 0 rfl⟩⟩

/-! ## Fetch layer retry loop (`BaseScraper.navigate_with_retry`,
`src/scrapers/base.py`)

One navigation attempt either returns a response with a status code,
returns no response, or raises; the per-attempt outcome is an oracle
indexed by the attempt number.  The returned triple is
`(success, attempts used, retry sleep log)`; the human-like pacing on the
success path has no observable effect and is not logged. -/

/-- Outcome of one `page.goto` attempt. -/
inductive NavOutcome where
  | resp (status : Nat)
  | noResponse
  | exc
deriving Repr, DecidableEq

/-- `BaseScraper.MAX_RETRIES`. -/
def MAX_RETRIES : Nat := 3

/-- The retry loop body of `navigate_with_retry`: classify the attempt's
outcome exactly as the `if`/`elif` chain does — 200 succeeds, 429 sleeps
`(attempt+1)*30` and retries, 403 fails immediately, anything else
(other status, missing response, exception) sleeps 5 and retries; an
exhausted loop returns failure. -/
def navGo (goto : Nat → NavOutcome) : Nat → Nat → Bool × Nat × List Nat
  | 0, attempt => (false, attempt, [])
  | fuel + 1, attempt =>
    match goto attempt with
    | .resp s =>
      if s = 200 then (true, attempt + 1, [])
      else if s = 429 then
        let r := navGo goto fuel (attempt + 1)
        (r.1, r.2.1, (attempt + 1) * 30 :: r.2.2)
      else if s = 403 then (false, attempt + 1, [])
      else
        let r := navGo goto fuel (attempt + 1)
        (r.1, r.2.1, 5 :: r.2.2)
    | .noResponse =>
      let r := navGo goto fuel (attempt + 1)
      (r.1, r.2.1, 5 :: r.2.2)
    | .exc =>
      let r := navGo goto fuel (attempt + 1)
      (r.1, r.2.1, 5 :: r.2.2)

/-- `navigate_with_retry` with the default retry bound. -/
def navigateWithRetry (goto : Nat → NavOutcome) : Bool × Nat × List Nat :=
  navGo goto MAX_RETRIES 0

/-- Whether an attempt outcome sends the loop around again. -/
def isRetry (o : NavOutcome) : Bool :=
  match o with
  | .resp s => if s = 200 then false else if s = 403 then false else true
  | _ => true

/-- The sleep taken after a retried attempt. -/
def sleepOf (o : NavOutcome) (attempt : Nat) : Nat :=
  match o with
  | .resp s => if s = 429 then (attempt + 1) * 30 else 5
  | _ => 5

/-- One-step unfolding of the retry loop. -/
lemma navGo_succ (goto : Nat → NavOutcome) (fuel attempt : Nat) :
    navGo goto (fuel + 1) attempt =
      match goto attempt with
      | .resp s =>
        if s = 200 then (true, attempt + 1, [])
        else if s = 429 then
          ((navGo goto fuel (attempt + 1)).1, (navGo goto fuel (attempt + 1)).2.1,
            (attempt + 1) * 30 :: (navGo goto fuel (attempt + 1)).2.2)
        else if s = 403 then (false, attempt + 1, [])
        else ((navGo goto fuel (attempt + 1)).1, (navGo goto fuel (attempt + 1)).2.1,
          5 :: (navGo goto fuel (attempt + 1)).2.2)
      | .noResponse =>
        ((navGo goto fuel (attempt + 1)).1, (navGo goto fuel (attempt + 1)).2.1,
          5 :: (navGo goto fuel (attempt + 1)).2.2)
      | .exc =>
        ((navGo goto fuel (attempt + 1)).1, (navGo goto fuel (attempt + 1)).2.1,
          5 :: (navGo goto fuel (attempt + 1)).2.2) := rfl

lemma navGo_200 (goto : Nat → NavOutcome) (fuel attempt : Nat)
    (h : goto attempt = .resp 200) :
    navGo goto (fuel + 1) attempt = (true, attempt + 1, []) := by
  rw [navGo_succ, h]
  rfl

lemma navGo_403 (goto : Nat → NavOutcome) (fuel attempt : Nat)
    (h : goto attempt = .resp 403) :
    navGo goto (fuel + 1) attempt = (false, attempt + 1, []) := by
  rw [navGo_succ, h]
  rfl

/-- A retried attempt recurses with one sleep logged. -/
lemma navGo_retry (goto : Nat → NavOutcome) (fuel attempt : Nat)
    (h : isRetry (goto attempt) = true) :
    navGo goto (fuel + 1) attempt =
      ((navGo goto fuel (attempt + 1)).1, (navGo goto fuel (attempt + 1)).2.1,
        sleepOf (goto attempt) attempt :: (navGo goto fuel (attempt + 1)).2.2) := by
  rcases hg : goto attempt with s | _ | _
  · rw [hg] at h
    dsimp only [isRetry] at h
    have h200 : ¬s = 200 := by
      intro he
      rw [if_pos he] at h
      exact Bool.false_ne_true h
    have h403 : ¬s = 403 := by
      intro he
      rw [if_neg h200, if_pos he] at h
      exact Bool.false_ne_true h
    rw [navGo_succ, hg]
    dsimp only [sleepOf]
    rw [if_neg h200]
    by_cases h429 : s = 429
    · rw [if_pos h429, if_pos h429]
    · rw [if_neg h429, if_neg h403, if_neg h429]
  · rw [navGo_succ, hg]
    rfl
  · rw [navGo_succ, hg]
    rfl

/-- Success is only ever reported off a 200 on the last attempt taken. -/
lemma navGo_success_200 (goto : Nat → NavOutcome) (fuel : Nat) :
    ∀ attempt, (navGo goto fuel attempt).1 = true →
      goto ((navGo goto fuel attempt).2.1 - 1) = NavOutcome.resp 200 := by
  induction fuel with
  | zero =>
    intro attempt h
    simp [navGo] at h
  | succ f ih =>
    intro attempt h
    rcases hg : goto attempt with s | _ | _
    · by_cases h200 : s = 200
      · subst h200
        rw [navGo_200 goto f attempt hg]
        simpa using hg
      · by_cases h403 : s = 403
        · subst h403
          rw [navGo_403 goto f attempt hg] at h
          exact absurd h (by simp)
        · have hr : isRetry (goto attempt) = true := by
            rw [hg, isRetry]
            rw [if_neg h200, if_neg h403]
          rw [navGo_retry goto f attempt hr] at h ⊢
          exact ih (attempt + 1) h
    · have hr : isRetry (goto attempt) = true := by rw [hg]; rfl
      rw [navGo_retry goto f attempt hr] at h ⊢
      exact ih (attempt + 1) h
    · have hr : isRetry (goto attempt) = true := by rw [hg]; rfl
      rw [navGo_retry goto f attempt hr] at h ⊢
      exact ih (attempt + 1) h

/-- Running the loop across a prefix of retried attempts accumulates their
sleeps and decrements the remaining budget. -/
lemma navGo_skip (goto : Nat → NavOutcome) (i : Nat) :
    ∀ fuel attempt, i ≤ fuel → (∀ j, j < i → isRetry (goto (attempt + j)) = true) →
      navGo goto fuel attempt =
        ((navGo goto (fuel - i) (attempt + i)).1,
          (navGo goto (fuel - i) (attempt + i)).2.1,
          (List.range i).map (fun j => sleepOf (goto (attempt + j)) (attempt + j)) ++
            (navGo goto (fuel - i) (attempt + i)).2.2) := by
  induction i with
  | zero =>
    intro fuel attempt _ _
    simp
  | succ i ih =>
    intro fuel attempt hle h
    cases fuel with
    | zero => omega
    | succ f =>
      rw [navGo_retry goto f attempt (by simpa using h 0 (by omega))]
      rw [ih f (attempt + 1) (by omega)
        (fun j hj => by
          have := h (j + 1) (by omega)
          simpa [Nat.add_assoc, Nat.add_comm 1 j] using this)]
      have hfuel : f + 1 - (i + 1) = f - i := by omega
      have hatt : attempt + 1 + i = attempt + (i + 1) := by omega
      have hmap : (List.range (i + 1)).map
            (fun j => sleepOf (goto (attempt + j)) (attempt + j)) =
          sleepOf (goto attempt) attempt ::
            (List.range i).map
              (fun j => sleepOf (goto (attempt + 1 + j)) (attempt + 1 + j)) := by
        rw [List.range_succ_eq_map, List.map_cons, List.map_map]
        congr 1
        apply List.map_congr_left
        intro j hj
        have he : attempt + (j + 1) = attempt + 1 + j := by omega
        simp only [Function.comp_apply, Nat.succ_eq_add_one, he]
      rw [hfuel, hatt, hmap, List.cons_append]

/-- C6: `navigate_with_retry` succeeds only off an HTTP 200 on the attempt
it stops at; when the first decisive attempt `i` is a 200 it succeeds
after `i + 1` attempts, when it is a 403 it fails immediately after
`i + 1` attempts with no further sleeps; each retried attempt `j` sleeps
`(j+1)*30` on a 429 and `5` otherwise; and three retried attempts exhaust
the loop into a returned failure — the result is always a value, never an
exception. -/
theorem navigateWithRetry_spec :
    MAX_RETRIES = 3 ∧
    (∀ goto : Nat → NavOutcome,
      (navigateWithRetry goto).1 = true →
        goto ((navigateWithRetry goto).2.1 - 1) = NavOutcome.resp 200) ∧
    (∀ (goto : Nat → NavOutcome) (i : Nat), i < MAX_RETRIES →
      (∀ j, j < i → isRetry (goto j) = true) →
      (goto i = NavOutcome.resp 200 →
        navigateWithRetry goto =
          (true, i + 1, (List.range i).map (fun j => sleepOf (goto j) j))) ∧
      (goto i = NavOutcome.resp 403 →
        navigateWithRetry goto =
          (false, i + 1, (List.range i).map (fun j => sleepOf (goto j) j)))) ∧
    (∀ goto : Nat → NavOutcome, (∀ j, j < MAX_RETRIES → isRetry (goto j) = true) →
      navigateWithRetry goto =
        (false, MAX_RETRIES,
          (List.range MAX_RETRIES).map (fun j => sleepOf (goto j) j))) ∧
    (∀ (s attempt : Nat),
      sleepOf (NavOutcome.resp 429) attempt = (attempt + 1) * 30 ∧
      (s ≠ 429 → sleepOf (NavOutcome.resp s) attempt = 5) ∧
      sleepOf NavOutcome.noResponse attempt = 5 ∧
      sleepOf NavOutcome.exc attempt = 5) := by
  refine ⟨rfl, ?_, ?_, ?_, ?_⟩
  · intro goto
    exact navGo_success_200 goto MAX_RETRIES 0
  · intro goto i hi hpre
    have hi3 : i < 3 := hi
    have hskip := navGo_skip goto i 3 0 (by omega)
      (fun j hj => by simpa using hpre j hj)
    obtain ⟨f, hf⟩ : ∃ f, 3 - i = f + 1 := ⟨3 - i - 1, by omega⟩
    constructor
    · intro h200
      show navGo goto 3 0 = _
      rw [hskip, hf, navGo_200 goto f (0 + i) (by simpa using h200)]
      simp
    · intro h403
      show navGo goto 3 0 = _
      rw [hskip, hf, navGo_403 goto f (0 + i) (by simpa using h403)]
      simp
  · intro goto hall
    have hskip := navGo_skip goto 3 3 0 (by omega)
      (fun j hj => by simpa using hall j (by simpa using hj))
    show navGo goto 3 0 = _
    rw [hskip]
    simp [navGo, MAX_RETRIES]
  · intro s attempt
    refine ⟨by simp [sleepOf], ?_, rfl, rfl⟩
    intro hs
    simp [sleepOf, hs]

/-- C6 witness attempt oracle: a 429 on the first attempt, then a 200. -/
def w6goto : Nat → NavOutcome := fun i => if i = 0 then .resp 429 else .resp 200

theorem navigateWithRetry_spec_witness :
    (1 < MAX_RETRIES) ∧ (∀ j, j < 1 → isRetry (w6goto j) = true) ∧
      w6goto 1 = NavOutcome.resp 200 ∧
      navigateWithRetry w6goto =
        (true, 1 + 1, (List.range 1).map (fun j => sleepOf (w6goto j) j)) :=
  ⟨by decide, by decide, by decide,
    ((navigateWithRetry_spec.2.2.1 w6goto 1 (by decide) (by decide)).1 (by decide))⟩

/-! ## LLM batch processing (`JobDescriptionProcessor`, `src/llm/processor.py`)

The network call `_call_llm` is an oracle from the prompt inputs to an
optional parsed JSON response (`None` covers API errors, quota timeout and
JSON parse failures alike).  A job dict is modelled with optional fields
(`none` is an absent key, read back through `dict.get` defaults).  The
thread pool completes jobs in arbitrary order; the stats are modelled by
the left fold over submission order, which the commutative counter updates
make order-insensitive. -/

/-- A job dict as handed to `process_job`. -/
structure LlmJob where
  title : Option String
  company : Option String
  description : Option String
deriving Repr, DecidableEq

/-- A parsed LLM JSON response; each field may be missing from the dict. -/
structure LlmResponse where
  cleaned : Option String
  tags : Option (List String)
  entities : Option (List (String × String))
deriving Repr, DecidableEq

/-- The processed result returned by `process_job` on success. -/
structure ProcOut where
  cleaned_description : String
  tags : List String
  entities : List (String × String)
deriving Repr, DecidableEq

/-- Length of the job's description as the batch counter reads it
(`len(job.get('description', ''))`). -/
def descLen (j : LlmJob) : Nat := (j.description.getD "").length

/-- `JobDescriptionProcessor.process_job`: skip (return `None`, no LLM
call) when the description is missing, empty or under 50 characters;
otherwise consult the LLM and propagate `None` on failure. -/
def processJob (llm : String → String → String → Option LlmResponse)
    (j : LlmJob) : Option ProcOut :=
  let description := j.description.getD ""
  let title := j.title.getD "Unknown"
  let company := j.company.getD "Unknown"
  if description = "" ∨ description.length < 50 then none
  else
    match llm description title company with
    | some r =>
      some { cleaned_description := r.cleaned.getD description,
             tags := r.tags.getD [], entities := r.entities.getD [] }
    | none => none

/-- The stats dict of `process_jobs_batch`. -/
structure LlmStats where
  processed : Nat
  failed : Nat
  skipped : Nat
deriving Repr, DecidableEq

/-- One completed future of `process_jobs_batch`: a result increments
`processed`; a `None` increments `skipped` when the description is under
50 characters and `failed` otherwise. -/
def batchStep (llm : String → String → String → Option LlmResponse)
    (stats : LlmStats) (j : LlmJob) : LlmStats :=
  match processJob llm j with
  | some _ => { stats with processed := stats.processed + 1 }
  | none =>
    if (j.description.getD "").length < 50 then
      { stats with skipped := stats.skipped + 1 }
    else { stats with failed := stats.failed + 1 }

/-- `JobDescriptionProcessor.process_jobs_batch`. -/
def processJobsBatch (llm : String → String → String → Option LlmResponse)
    (jobs : List LlmJob) : LlmStats :=
  jobs.foldl (batchStep llm) ⟨0, 0, 0⟩

/-- A short or absent description is skipped without consulting any
oracle. -/
lemma processJob_short_none (j : LlmJob) (h : descLen j < 50)
    (llm : String → String → String → Option LlmResponse) :
    processJob llm j = none := by
  unfold processJob
  dsimp only
  rw [if_pos (Or.inr (show (j.description.getD "").length < 50 from h))]

/-- Closed form of the batch fold from any starting stats. -/
lemma batch_fold (llm : String → String → String → Option LlmResponse)
    (jobs : List LlmJob) : ∀ s : LlmStats,
    jobs.foldl (batchStep llm) s =
      { processed := s.processed + jobs.countP (fun j2 => (processJob llm j2).isSome),
        failed := s.failed +
          jobs.countP (fun j2 => !decide (descLen j2 < 50) && (processJob llm j2).isNone),
        skipped := s.skipped + jobs.countP (fun j2 => decide (descLen j2 < 50)) } := by
  induction jobs with
  | nil =>
    intro s
    simp [List.countP_nil]
  | cons j js ih =>
    intro s
    rw [List.foldl_cons, ih]
    unfold batchStep
    cases hp : processJob llm j with
    | some r =>
      have hlen : ¬(j.description.getD "").length < 50 := by
        intro hlt
        rw [processJob_short_none j (show descLen j < 50 from hlt) llm] at hp
        exact Option.noConfusion hp
      simp [List.countP_cons, hp, hlen, descLen]
      omega
    | none =>
      by_cases hlen : descLen j < 50
      · rw [if_pos (by simpa [descLen] using hlen)]
        simp [List.countP_cons, hp, hlen]
        omega
      · rw [if_neg (by simpa [descLen] using hlen)]
        simp [List.countP_cons, hp, hlen]
        omega

/-- Every job falls into exactly one of the three counter classes. -/
lemma countP_partition (llm : String → String → String → Option LlmResponse)
    (jobs : List LlmJob) :
    jobs.countP (fun j2 => (processJob llm j2).isSome) +
      jobs.countP
        (fun j2 => !decide (descLen j2 < 50) && (processJob llm j2).isNone) +
      jobs.countP (fun j2 => decide (descLen j2 < 50)) = jobs.length := by
  induction jobs with
  | nil => simp
  | cons j2 js ih =>
    simp only [List.countP_cons, List.length_cons]
    by_cases hlen : descLen j2 < 50
    · have hnone : processJob llm j2 = none := processJob_short_none j2 hlen llm
      simp [hnone, hlen]
      omega
    · cases hp : processJob llm j2 with
      | some r =>
        simp [hp, hlen]
        omega
      | none =>
        simp [hp, hlen]
        omega

/-- C9: a job whose description is absent or under 50 characters yields
`None` from `process_job` independently of the LLM oracle (no call is
made) and is counted as skipped; a long-enough job whose LLM call or JSON
parse produces nothing is counted as failed; and the batch counters
decompose the input — processed, failed and skipped sum to the number of
jobs. -/
theorem processBatch_stats (llm : String → String → String → Option LlmResponse)
    (jobs : List LlmJob) (j : LlmJob) :
    (descLen j < 50 →
      ∀ llm2 : String → String → String → Option LlmResponse,
        processJob llm2 j = none) ∧
    (50 ≤ descLen j →
      llm (j.description.getD "") (j.title.getD "Unknown") (j.company.getD "Unknown") =
        none →
      processJob llm j = none) ∧
    (processJobsBatch llm jobs =
      { processed := jobs.countP (fun j2 => (processJob llm j2).isSome),
        failed := jobs.countP
          (fun j2 => !decide (descLen j2 < 50) && (processJob llm j2).isNone),
        skipped := jobs.countP (fun j2 => decide (descLen j2 < 50)) }) ∧
    ((processJobsBatch llm jobs).processed + (processJobsBatch llm jobs).failed +
      (processJobsBatch llm jobs).skipped = jobs.length) := by
  have hbatch := batch_fold llm jobs ⟨0, 0, 0⟩
  refine ⟨fun h llm2 => processJob_short_none j h llm2, ?_, ?_, ?_⟩
  · intro hlen hcall
    unfold processJob
    dsimp only
    have hd : descLen j = (j.description.getD "").length := rfl
    have hne : ¬((j.description.getD "") = "" ∨ (j.description.getD "").length < 50) := by
      rintro (he | hlt)
      · rw [hd, he] at hlen
        simp at hlen
      · omega
    rw [if_neg hne, hcall]
  · show jobs.foldl (batchStep llm) ⟨0, 0, 0⟩ = _
    rw [hbatch]
    simp
  · show (jobs.foldl (batchStep llm) ⟨0, 0, 0⟩).processed +
      (jobs.foldl (batchStep llm) ⟨0, 0, 0⟩).failed +
      (jobs.foldl (batchStep llm) ⟨0, 0, 0⟩).skipped = jobs.length
    rw [hbatch]
    simp only [Nat.zero_add]
    exact countP_partition llm jobs

/-- C9 witness: a job under the length floor. -/
def w9short : LlmJob := { title := none, company := none, description := some "too short" }

/-- C9 witness: a job over the length floor. -/
def w9long : LlmJob :=
  { title := some "T", company := some "C",
    description := some
      "this description is certainly longer than the fifty character floor" }

/-- C9 witness: an oracle that always fails. -/
def w9llm : String → String → String → Option LlmResponse := fun _ _ _ => none

theorem processBatch_stats_witness :
    (descLen w9short < 50 ∧ processJob w9llm w9short = none) ∧
      (50 ≤ descLen w9long ∧ processJob w9llm w9long = none) :=
  ⟨⟨by decide, (processBatch_stats w9llm [] w9short).1 (by decide) w9llm⟩,
    ⟨by decide, (processBatch_stats w9llm [] w9long).2.1 (by decide) rfl⟩⟩

/-! ## Description extraction cascade
(`DescriptionFetcher._extract_description`,
`src/scrapers/description_fetcher.py`)

The parsed HTML page is abstracted to what the cascade queries of it: the
JSON-LD script parse results in document order, the selector query
(selector string to matched element texts, in `get_text` form), and the
stripped body text.  `_clean_description` (HTML entity and tag stripping
through lxml) is an abstract function parameter. -/

/-- A JSON-LD object as the extractor reads it: its `@type` and its
optional `description` value. -/
structure LdItem where
  atType : String
  description : Option String
deriving Repr, DecidableEq

/-- A successfully parsed JSON-LD script: a JSON array of objects, a JSON
object (with an optional `@graph` array), or some other JSON value. -/
inductive LdData where
  | arr (items : List LdItem)
  | obj (item : LdItem) (graph : Option (List LdItem))
  | other
deriving Repr, DecidableEq

/-- The parsed HTML document, abstracted to the queries the cascade
makes. -/
structure HtmlDoc where
  scripts : List (Option LdData)
  select : String → List String
  bodyText : Option String

/-- `DescriptionFetcher.SITE_SELECTORS`. -/
def SITE_SELECTORS : String → List String
  | "totaljobs" =>
    ["[data-at=\"job-description\"]", "[data-genesis-element=\"TEXT\"]",
      "span[data-genesis-element=\"TEXT\"]", "[class*=\"job-ad-display\"]"]
  | "reed" =>
    ["[data-qa=\"job-description\"]", ".job-description", ".description",
      "[itemprop=\"description\"]", ".job-details-description", "#job-description"]
  | "indeed" =>
    ["#jobDescriptionText", ".jobsearch-jobDescriptionText",
      "[data-testid=\"jobDescriptionText\"]", ".job-description", "#jobDescription"]
  | "cvlibrary" =>
    [".job-description", ".job__description", "[class*=\"job-description\"]",
      ".vacancy-description", "#job-description"]
  | _ => []

/-- The generic fallback selectors of `_extract_description`. -/
def genericSelectors : List String :=
  ["[data-at=\"job-description\"]", "[class*=\"job-description\"]",
    "[class*=\"jobDescription\"]", ".description", "#description"]

/-- The site selectors chosen for an optional source hint. -/
def siteSelectorsOf (source : Option String) : List String :=
  match source with
  | some src => SITE_SELECTORS src
  | none => []

/-- The selector list the loop walks: site selectors first, then the
generic ones not already present. -/
def selectorsFor (source : Option String) : List String :=
  let site := siteSelectorsOf source
  site ++ genericSelectors.filter (fun s => ¬site.contains s)

/-- The check one JSON-LD object undergoes: a `JobPosting` with a truthy
description cleaning up to more than 200 characters. -/
def directLd (clean : String → String) (it : LdItem) : Option String :=
  match it.description with
  | some d =>
    if it.atType = "JobPosting" ∧ d ≠ "" then
      if 200 < (clean d).length then some (clean d) else none
    else none
  | none => none

/-- The loop over a JSON-LD array (also used for `@graph`): first object
passing `directLd`; a short or non-matching object is skipped, not
fatal. -/
def firstLdDesc (clean : String → String) : List LdItem → Option String
  | [] => none
  | it :: rest =>
    match directLd clean it with
    | some d => some d
    | none => firstLdDesc clean rest

/-- `DescriptionFetcher._extract_from_json_ld`: walk the script tags in
order; parse failures are skipped; an array is scanned item by item; an
object is checked directly and then through its `@graph`. -/
def extractFromJsonLd (clean : String → String) : List (Option LdData) → Option String
  | [] => none
  | none :: rest => extractFromJsonLd clean rest
  | some (.arr items) :: rest =>
    match firstLdDesc clean items with
    | some d => some d
    | none => extractFromJsonLd clean rest
  | some (.obj item graph) :: rest =>
    match directLd clean item with
    | some d => some d
    | none =>
      match graph with
      | some g =>
        match firstLdDesc clean g with
        | some d => some d
        | none => extractFromJsonLd clean rest
      | none => extractFromJsonLd clean rest
  | some .other :: rest => extractFromJsonLd clean rest

/-- The largest matched text block, ties to the earliest
(`largest_text` accumulation). -/
def largestText (texts : List String) : String :=
  texts.foldl (fun best t => if best.length < t.length then t else best) ""

/-- The selector loop: for the first selector with matches whose largest
text block exceeds 200 characters, return that block; selectors with no
matches or only short matches are passed over. -/
def selectorScan (select : String → List String) : List String → Option String
  | [] => none
  | sel :: rest =>
    let elems := select sel
    if elems = [] then selectorScan select rest
    else
      let lt := largestText elems
      if 200 < lt.length then some lt else selectorScan select rest

/-- `DescriptionFetcher._extract_description`: JSON-LD, then the merged
selector list, then the stripped body text over 500 characters. -/
def extractDescription (clean : String → String) (doc : HtmlDoc)
    (source : Option String) : Option String :=
  match extractFromJsonLd clean doc.scripts with
  | some d => some d
  | none =>
    match selectorScan doc.select (selectorsFor source) with
    | some d => some d
    | none =>
      match doc.bodyText with
      | some t => if 500 < t.length then some t else none
      | none => none

/-- A scan hit names a selector in the list whose largest matched block it
is, and that block exceeds 200 characters. -/
lemma selectorScan_mem (select : String → List String) (l : List String) (d : String)
    (h : selectorScan select l = some d) :
    ∃ sel ∈ l, select sel ≠ [] ∧ d = largestText (select sel) ∧ 200 < d.length := by
  induction l with
  | nil => simp [selectorScan] at h
  | cons sel rest ih =>
    unfold selectorScan at h
    dsimp only at h
    by_cases he : select sel = []
    · rw [if_pos he] at h
      obtain ⟨s2, hm, hrest⟩ := ih h
      exact ⟨s2, by simp [hm], hrest⟩
    · rw [if_neg he] at h
      by_cases hl : 200 < (largestText (select sel)).length
      · rw [if_pos hl] at h
        obtain rfl : largestText (select sel) = d := Option.some.inj h
        exact ⟨sel, by simp, he, rfl, hl⟩
      · rw [if_neg hl] at h
        obtain ⟨s2, hm, hrest⟩ := ih h
        exact ⟨s2, by simp [hm], hrest⟩

/-- C7: the cascade honours its order — a JSON-LD hit is returned as is; a
selector hit is returned whenever JSON-LD produced nothing, so a
sufficient generic selector match is never displaced by the body
fallback; `None` comes back exactly when every step failed; and when the
site-specific selectors match nothing, a selector hit is the largest
block of one of the generic selectors. -/
theorem extractDescription_cascade (clean : String → String) (doc : HtmlDoc)
    (source : Option String) (d : String) :
    (extractFromJsonLd clean doc.scripts = some d →
      extractDescription clean doc source = some d) ∧
    (extractDescription clean doc source = none ↔
      extractFromJsonLd clean doc.scripts = none ∧
      selectorScan doc.select (selectorsFor source) = none ∧
      (∀ t, doc.bodyText = some t → t.length ≤ 500)) ∧
    (extractFromJsonLd clean doc.scripts = none →
      selectorScan doc.select (selectorsFor source) = some d →
      extractDescription clean doc source = some d) ∧
    (extractFromJsonLd clean doc.scripts = none →
      (∀ s ∈ siteSelectorsOf source, doc.select s = []) →
      selectorScan doc.select (selectorsFor source) = some d →
      extractDescription clean doc source = some d ∧
        ∃ sel ∈ genericSelectors, d = largestText (doc.select sel)) := by
  refine ⟨?_, ?_, ?_, ?_⟩
  · intro h
    unfold extractDescription
    rw [h]
  · unfold extractDescription
    cases h1 : extractFromJsonLd clean doc.scripts with
    | some d2 => simp [h1]
    | none =>
      cases h2 : selectorScan doc.select (selectorsFor source) with
      | some d2 => simp
      | none =>
        cases h3 : doc.bodyText with
        | none => simp
        | some t =>
          dsimp only
          by_cases h4 : 500 < t.length
          · rw [if_pos h4]
            simp [h4]
          · rw [if_neg h4]
            simp
            omega
  · intro h1 h2
    unfold extractDescription
    rw [h1, h2]
  · intro h1 hsite h2
    constructor
    · unfold extractDescription
      rw [h1, h2]
    · obtain ⟨sel, hmem, hne, hd, _⟩ := selectorScan_mem doc.select _ d h2
      unfold selectorsFor at hmem
      dsimp only at hmem
      rcases List.mem_append.mp hmem with hm | hm
      · exact absurd (hsite sel hm) hne
      · exact ⟨sel, (List.mem_filter.mp hm).1, hd⟩

/-- C7 witness: a text block over the 200-character selector floor. -/
def w7text : String :=
  String.mk (List.replicate 210 'x')

/-- C7 witness document: no structured metadata, one generic selector
match, and a long body that must not be used. -/
def w7doc : HtmlDoc :=
  { scripts := [none],
    select := fun s => if s = ".description" then [w7text] else [],
    bodyText := some (String.mk (List.replicate 600 'b')) }

theorem extractDescription_cascade_witness :
    extractFromJsonLd id w7doc.scripts = none ∧
      (∀ s ∈ siteSelectorsOf none, w7doc.select s = []) ∧
      selectorScan w7doc.select (selectorsFor none) = some w7text ∧
      (extractDescription id w7doc none = some w7text ∧
        ∃ sel ∈ genericSelectors, w7text = largestText (w7doc.select sel)) :=
  ⟨rfl, by simp [siteSelectorsOf], by decide,
    (extractDescription_cascade id w7doc none w7text).2.2.2 rfl
      (by simp [siteSelectorsOf]) (by decide)⟩

/-! ## Scheduler (`JobScheduler`, `src/scheduler/scheduler.py`)

Wall-clock seconds are rationals.  The tick predicate `_should_run_task`
and the `task_wrapper` state transitions of `_run_task` are modelled; the
executor outcome (normal return or exception) is the `ok` flag of the
end transition. -/

/-- The three pipeline stages. -/
inductive TaskName where
  | scrape
  | descriptions
  | llm
deriving Repr, DecidableEq

/-- `TaskStatus`. -/
inductive TaskStatus where
  | idle
  | running
  | completed
  | failed
deriving Repr, DecidableEq

/-- `SchedulerConfig`, with its code defaults. -/
structure SchedulerConfig where
  enabled : Bool := false
  scrape_interval_minutes : Nat := 60
  description_interval_minutes : Nat := 15
  llm_interval_minutes : Nat := 10
  scrape_enabled : Bool := true
  description_enabled : Bool := true
  llm_enabled : Bool := true
deriving Repr, DecidableEq

/-- The `intervals` dict of `_should_run_task`. -/
def intervalOf (cfg : SchedulerConfig) : TaskName → Nat
  | .scrape => cfg.scrape_interval_minutes
  | .descriptions => cfg.description_interval_minutes
  | .llm => cfg.llm_interval_minutes

/-- The `enabled` dict of `_should_run_task`. -/
def enabledOf (cfg : SchedulerConfig) : TaskName → Bool
  | .scrape => cfg.scrape_enabled
  | .descriptions => cfg.description_enabled
  | .llm => cfg.llm_enabled

/-- The scheduler's mutable state: per-stage status and last-run time. -/
structure SchedState where
  statuses : TaskName → TaskStatus
  lastRuns : TaskName → ℚ

/-- `JobScheduler._should_run_task`: enabled, not already running, and at
least the configured interval (in seconds) since the last recorded run. -/
def shouldRunTask (cfg : SchedulerConfig) (st : SchedState) (now : ℚ)
    (task : TaskName) : Bool :=
  if ¬(enabledOf cfg task = true) then false
  else if st.statuses task = TaskStatus.running then false
  else decide (((intervalOf cfg task : ℚ)) * 60 ≤ now - st.lastRuns task)

/-- The `task_wrapper` start transition: status to Running. -/
def startTask (st : SchedState) (task : TaskName) : SchedState :=
  { st with statuses := fun t => if t = task then .running else st.statuses t }

/-- The `task_wrapper` end transition: on a normal return, status to
Completed and the last-run time recorded; on an exception, status to
Failed and the last-run time left alone. -/
def endTask (st : SchedState) (task : TaskName) (endTime : ℚ) (ok : Bool) :
    SchedState :=
  if ok then
    { statuses := fun t => if t = task then .completed else st.statuses t,
      lastRuns := fun t => if t = task then endTime else st.lastRuns t }
  else
    { st with statuses := fun t => if t = task then .failed else st.statuses t }

/-- One stage check of the scheduler loop: start the stage when the global
switch and `_should_run_task` agree, otherwise leave the state alone. -/
def tick (cfg : SchedulerConfig) (st : SchedState) (now : ℚ) (task : TaskName) :
    SchedState :=
  if cfg.enabled && shouldRunTask cfg st now task then startTask st task else st

/-- C8 counterexample: a run that fails does not record the last-run
timestamp, contrary to the claim that the timestamp is recorded at a
Completed or Failed end alike. -/
def w8st : SchedState := { statuses := fun _ => .idle, lastRuns := fun _ => 0 }

theorem scheduler_failed_run_keeps_lastRun :
    (endTask w8st .llm 100 false).lastRuns .llm = 0 ∧
      (endTask w8st .llm 100 false).statuses .llm = .failed ∧ (0 : ℚ) ≠ 100 :=
  ⟨rfl, rfl, by norm_num⟩

/-- C8 (amended): a tick starts a stage only if it is enabled, not already
running, and due by its interval; a skipped tick leaves the state — in
particular the last-run timestamp — untouched; the last-run timestamp is
recorded exactly at a successful Completed end, while a Failed end and
the start transition leave every last-run timestamp unchanged, and end
transitions set the matching status. -/
theorem scheduler_tick_spec (cfg : SchedulerConfig) (st : SchedState) (now : ℚ)
    (task : TaskName) :
    (shouldRunTask cfg st now task = true ↔
      enabledOf cfg task = true ∧ st.statuses task ≠ TaskStatus.running ∧
        ((intervalOf cfg task : ℚ)) * 60 ≤ now - st.lastRuns task) ∧
    (shouldRunTask cfg st now task = false → tick cfg st now task = st) ∧
    (∀ (t : TaskName) (endTime : ℚ),
      (endTask st task endTime true).lastRuns task = endTime ∧
      (endTask st task endTime false).lastRuns t = st.lastRuns t ∧
      (startTask st task).lastRuns t = st.lastRuns t ∧
      (t ≠ task → (endTask st task endTime true).lastRuns t = st.lastRuns t)) ∧
    (∀ endTime : ℚ,
      (endTask st task endTime true).statuses task = .completed ∧
      (endTask st task endTime false).statuses task = .failed ∧
      (startTask st task).statuses task = .running) := by
  refine ⟨?_, ?_, ?_, ?_⟩
  · unfold shouldRunTask
    by_cases he : enabledOf cfg task = true
    · rw [if_neg (by simp [he])]
      by_cases hr : st.statuses task = TaskStatus.running
      · rw [if_pos hr]
        simp [he, hr]
      · rw [if_neg hr]
        simp [he, hr]
    · rw [if_pos (by simp [he])]
      simp [he]
  · intro h
    unfold tick
    rw [h]
    simp
  · intro t endTime
    refine ⟨by simp [endTask], by simp [endTask], by simp [startTask], ?_⟩
    intro hne
    simp [endTask, hne]
  · intro endTime
    exact ⟨by simp [endTask], by simp [endTask], by simp [startTask]⟩

/-- C8 witness configuration: the scrape stage disabled. -/
def w8cfg : SchedulerConfig := { scrape_enabled := false }

theorem scheduler_tick_spec_witness :
    shouldRunTask w8cfg w8st 5 .scrape = false ∧
      tick w8cfg w8st 5 .scrape = w8st ∧
      (endTask w8st .llm 7 true).lastRuns .llm = 7 :=
  ⟨rfl, (scheduler_tick_spec w8cfg w8st 5 .scrape).2.1 rfl,
    ((scheduler_tick_spec w8cfg w8st 5 .llm).2.2.1 .llm 7).1⟩

end JobScraper
